import Mathlib

/-!
Verification of the reactive-stream runtime and application wiring of the
`ng-with-rxjs-subject` repository.

The application source (`shared.service.ts`, `posts.component.ts`) is embedded
directly.  The reactive runtime itself (Subject, BehaviorSubject, operators,
subscriptions) is not part of the repository's own sources — the repository only
calls it — so those parts are modelled from the specification, as marked on each
definition.
-/

namespace RxModel

/-- Modelled from the spec: a notification delivered to an observer —
the tagged-variant form \x7bNext(value) | Error(cause) | Complete\x7d. -/
inductive Notif (α ε : Type) : Type where
  | next (v : α)
  | error (e : ε)
  | complete
deriving DecidableEq, Repr

/-- Modelled from the spec: the terminal state of a Subject
(none / completed / errored with cause). -/
inductive Terminal (ε : Type) : Type where
  | completed
  | errored (e : ε)
deriving DecidableEq, Repr

/-- The notification that a terminal state caches for late subscribers. -/
def Terminal.notif : Terminal ε → Notif α ε
  | .completed => .complete
  | .errored e => .error e

/-- Modelled from the spec: state of a Subject — the set of currently
registered observers in insertion order (observers are identified by `Nat`
ids), the terminal state, and the global delivery trace: every notification
delivered so far, in delivery order, tagged with the receiving observer. -/
structure SubjectState (α ε : Type) : Type where
  active : List Nat
  terminal : Option (Terminal ε)
  trace : List (Nat × Notif α ε)
deriving DecidableEq, Repr

/-- The notifications received by observer `i`, in delivery order. -/
def receivedBy (i : Nat) (tr : List (Nat × Notif α ε)) : List (Notif α ε) :=
  tr.filterMap (fun p => if p.1 = i then some p.2 else none)

/-- Modelled from the spec: `createSubject` — no observers, not terminal. -/
def SubjectState.mk0 : SubjectState α ε := ⟨[], none, []⟩

/-- Modelled from the spec: `Subject.next(value)` fails silently (no-op) if
terminal; otherwise fans out `onNext` to every currently active observer,
in subscription order. -/
def SubjectState.next (s : SubjectState α ε) (v : α) : SubjectState α ε :=
  if s.terminal.isSome then s
  else { s with trace := s.trace ++ s.active.map (fun i => (i, Notif.next v)) }

/-- Modelled from the spec: `Subject.complete()` — sets terminal state, fans
out the terminal notification once, then clears the active-observer set.
A no-op if already terminal (a Source emits nothing further once terminal). -/
def SubjectState.complete (s : SubjectState α ε) : SubjectState α ε :=
  match s.terminal with
  | some _ => s
  | none =>
    { active := [], terminal := some .completed,
      trace := s.trace ++ s.active.map (fun i => (i, Notif.complete)) }

/-- Modelled from the spec: `Subject.error(err)` — sets terminal state, fans
out the terminal notification once, then clears the active-observer set. -/
def SubjectState.error (s : SubjectState α ε) (e : ε) : SubjectState α ε :=
  match s.terminal with
  | some _ => s
  | none =>
    { active := [], terminal := some (.errored e),
      trace := s.trace ++ s.active.map (fun i => (i, Notif.error e)) }

/-- Modelled from the spec: `Subject.subscribe(observer)` — once terminal,
a new subscriber immediately receives the cached terminal notification and is
never added to the active set; otherwise it is appended to the active set. -/
def SubjectState.subscribe (s : SubjectState α ε) (i : Nat) : SubjectState α ε :=
  match s.terminal with
  | some t => { s with trace := s.trace ++ [(i, t.notif)] }
  | none => { s with active := s.active ++ [i] }

/-- A whole sequence of pushes, in order. -/
def SubjectState.pushAll (s : SubjectState α ε) (vs : List α) : SubjectState α ε :=
  vs.foldl SubjectState.next s

/-- Modelled from the spec: `StateError` — operation invalid given terminal
state, reported to the caller. -/
inductive StateError : Type where
  | invalidState
deriving DecidableEq, Repr

/-- Modelled from the spec: a Subscription — its cancellation flag `active`,
the ordered list of registered teardown callbacks (identified by `Nat` ids,
in registration order), the callbacks already executed (in execution order),
and the notifications delivered to its observer so far. -/
structure Subscription (α ε : Type) : Type where
  active : Bool
  teardowns : List Nat
  ran : List Nat
  received : List (Notif α ε)
deriving DecidableEq, Repr

/-- Modelled from the spec: registering a teardown callback on a live
Subscription appends it to the ordered list; on an inactive one it is not
retained. -/
def Subscription.addTeardown (s : Subscription α ε) (k : Nat) : Subscription α ε :=
  if s.active then { s with teardowns := s.teardowns ++ [k] } else s

/-- Modelled from the spec: `cancel` — when the Subscription is active, clear
the `active` flag and run every registered teardown callback, in reverse
registration order; when already inactive, a no-op, never an error. -/
def Subscription.cancel (s : Subscription α ε) : Subscription α ε :=
  if s.active then
    { active := false, teardowns := [], ran := s.ran ++ s.teardowns.reverse,
      received := s.received }
  else s

/-- Modelled from the spec: delivering a notification checks liveness first —
once the `active` flag is cleared, no further notification reaches the
subscriber. -/
def Subscription.notify (s : Subscription α ε) (n : Notif α ε) : Subscription α ε :=
  if s.active then { s with received := s.received ++ [n] } else s

/-- Deliver a whole sequence of notifications. -/
def Subscription.notifyAll (s : Subscription α ε) (ns : List (Notif α ε)) :
    Subscription α ε :=
  ns.foldl Subscription.notify s

/-- Modelled from the spec: state of a BehaviorSubject — a Subject together
with `currentValue`, defined at construction. -/
structure BehaviorState (α ε : Type) : Type where
  current : α
  active : List Nat
  terminal : Option (Terminal ε)
  trace : List (Nat × Notif α ε)
deriving DecidableEq, Repr

/-- Modelled from the spec: `createBehaviorSubject(initial)`. -/
def BehaviorState.mk0 (a : α) : BehaviorState α ε := ⟨a, [], none, []⟩

/-- Modelled from the spec: `BehaviorSubject.next(value)` fails with an
`InvalidStateError`-class condition if called after termination; otherwise it
updates `currentValue` synchronously and fans out to every active observer in
subscription order. -/
def BehaviorState.next (s : BehaviorState α ε) (v : α) :
    Except StateError (BehaviorState α ε) :=
  if s.terminal.isSome then .error .invalidState
  else .ok { s with current := v,
                    trace := s.trace ++ s.active.map (fun i => (i, Notif.next v)) }

/-- The successful-push view of `BehaviorState.next` (identity on failure),
used to fold a sequence of pushes. -/
def BehaviorState.nextD (s : BehaviorState α ε) (v : α) : BehaviorState α ε :=
  ((s.next v).toOption).getD s

/-- A whole sequence of pushes into a BehaviorSubject. -/
def BehaviorState.pushAll (s : BehaviorState α ε) (vs : List α) : BehaviorState α ε :=
  vs.foldl BehaviorState.nextD s

/-- Modelled from the spec: `BehaviorSubject.subscribe(observer)` delivers
`currentValue` synchronously before returning, then behaves as Subject; once
terminal, the new subscriber receives only the cached terminal notification. -/
def BehaviorState.subscribe (s : BehaviorState α ε) (i : Nat) : BehaviorState α ε :=
  match s.terminal with
  | some t => { s with trace := s.trace ++ [(i, t.notif)] }
  | none => { s with active := s.active ++ [i],
                     trace := s.trace ++ [(i, Notif.next s.current)] }

/-- A sample Subject state with two active observers, used to instantiate
the general theorems at concrete inputs. -/
def wSubj : SubjectState Nat Unit := ⟨[0, 1], none, []⟩

/-- A sample non-terminal BehaviorSubject state holding the README's initial
value 100, used to instantiate the general theorems at concrete inputs. -/
def wBeh : BehaviorState Nat Unit := ⟨100, [], none, []⟩

/-- A sample terminated BehaviorSubject state. -/
def wBehDone : BehaviorState Nat Unit := ⟨100, [], some .completed, []⟩

/-- Modelled from the spec: the discrete events driving a `switchMap` stage —
arrival of an upstream (outer) value, one step of the currently subscribed
inner Source (which emits its next value, or completes when exhausted), or
completion of the upstream. -/
inductive SwEv (α : Type) : Type where
  | outer (x : α)
  | tick
  | upDone
deriving DecidableEq, Repr

/-- Whether an event is an upstream value arrival. -/
def SwEv.isOuter : SwEv α → Bool
  | .outer _ => true
  | _ => false

/-- Modelled from the spec: state of a `switchMap` stage — the remaining
emissions of the currently subscribed inner Source (`none` when no inner
Source is live), whether the upstream has completed, the values forwarded
downstream so far, and whether the downstream stream has completed. -/
structure SwState (β : Type) : Type where
  pending : Option (List β)
  upDone : Bool
  out : List β
  done : Bool
deriving DecidableEq, Repr

/-- The initial `switchMap` state: no inner Source, nothing forwarded. -/
def SwState.init : SwState β := ⟨none, false, [], false⟩

/-- Modelled from the spec: one step of `switchMap(f)` — a new upstream value
immediately unsubscribes the previous inner Source and subscribes `f x`;
a tick forwards the live inner Source's next value, or, when the inner Source
is exhausted, lets it complete — which completes the outer stream only if the
upstream has also completed; upstream completion completes the outer stream
only if no inner Source is still live. -/
def swStep (f : α → List β) (s : SwState β) : SwEv α → SwState β
  | .outer x => { s with pending := some (f x) }
  | .tick =>
    match s.pending with
    | some (v :: r) => { s with out := s.out ++ [v], pending := some r }
    | some [] => { s with pending := none, done := s.upDone }
    | none => s
  | .upDone => { s with upDone := true, done := s.pending.isNone || s.done }

/-- Run a `switchMap` stage over a whole event sequence. -/
def swRun (f : α → List β) (s : SwState β) (evs : List (SwEv α)) : SwState β :=
  evs.foldl (swStep f) s

/-- The concrete inner-source assignment of the spec's `switchMap` scenario:
inner(x) for the outer value x = 0 would emit 1, 2, 3 slowly; inner(y) for
the outer value y = 1 emits 9 immediately. -/
def swF : Nat → List Nat := fun n => if n = 1 then [9] else [1, 2, 3]

/-- Modelled from the spec: a `debounceTime(d)` stage driven by a timer —
the state is the pending timer (`some (deadline, value)`), a new upstream
value cancels and restarts the timer, a value is forwarded when its deadline
passes before the next upstream value, and upstream completion (at time `tc`,
`none` meaning the upstream never completes) flushes the pending value
immediately if one is outstanding.  Input pushes are `(time, value)` pairs in
arrival order; output is `(time, value)` pairs in forwarding order. -/
def debRun (d : Nat) (tc : Option Nat) :
    Option (Nat × α) → List (Nat × α) → List (Nat × α)
  | none, [] => []
  | some (dl, w), [] =>
    match tc with
    | none => [(dl, w)]
    | some tDone => [(min dl tDone, w)]
  | none, (t, v) :: rest => debRun d tc (some (t + d, v)) rest
  | some (dl, w), (t, v) :: rest =>
    if dl < t then (dl, w) :: debRun d tc (some (t + d, v)) rest
    else debRun d tc (some (t + d, v)) rest

/-- `debounceTime(d)` on an upstream push timeline, starting with no pending
timer. -/
def debounceTime (d : Nat) (tc : Option Nat) (ps : List (Nat × α)) :
    List (Nat × α) :=
  debRun d tc none ps

/-- For each push, the arrival time of the next push (`none` for the last). -/
def nextTimes : List (Nat × α) → List (Option Nat)
  | [] => []
  | [_] => [none]
  | _ :: (t', v') :: rest => some t' :: nextTimes ((t', v') :: rest)

/-- The forwarding time of the last pending value: its deadline, moved earlier
to the completion time when the upstream completes first. -/
def flushAt (tc : Option Nat) (x : Nat) : Nat :=
  match tc with
  | none => x
  | some tDone => min x tDone

/-- The spec's pointwise description of `debounceTime(d)`: a push `(t, v)` is
forwarded, at `t + d`, precisely when no newer push arrives within `d` of it;
a superseded value is never forwarded; the last push is flushed at completion
if its window is still open. -/
def debSpec (d : Nat) (tc : Option Nat) (ps : List (Nat × α)) :
    List (Nat × α) :=
  (ps.zip (nextTimes ps)).filterMap (fun q =>
    match q.2 with
    | some t' => if t' ≤ q.1.1 + d then none else some (q.1.1 + d, q.1.2)
    | none => some (flushAt tc (q.1.1 + d), q.1.2))

/-- Modelled from the spec: one input Source of `forkJoin`, abstracted to its
observable history — the values it emits, and whether it then completes
(`err = none`) or errors (`err = some e`). -/
structure FJSource (β ε : Type) : Type where
  vals : List β
  err : Option ε
deriving DecidableEq, Repr

/-- Modelled from the spec: the overall outcome of a `forkJoin` combination —
a single array emission followed by completion, an empty completion, or a
propagated error. -/
inductive FJResult (β ε : Type) : Type where
  | emits (arr : List β)
  | completeEmpty
  | errored (e : ε)
deriving DecidableEq, Repr

/-- The first error among the input Sources, if any. -/
def firstErr : List (FJSource β ε) → Option ε
  | [] => none
  | s :: rest =>
    match s.err with
    | some e => some e
    | none => firstErr rest

/-- Modelled from the spec: `forkJoin(sources)` — if any input Source errors,
no array is emitted and that error is propagated; if any input completes
having emitted no value, the combination completes empty; otherwise a single
array of each Source's last value is emitted once every Source has
completed. -/
def forkJoin (srcs : List (FJSource β ε)) : FJResult β ε :=
  match firstErr srcs with
  | some e => .errored e
  | none =>
    if srcs.any (fun s => s.vals.isEmpty) then .completeEmpty
    else .emits (srcs.filterMap (fun s => s.vals.getLast?))

end RxModel

namespace App

open RxModel

/-- Embedding of `src/src/app/shared.service.ts`: the service owns one field,
`public posts = new Subject()`. -/
structure SharedService (α ε : Type) : Type where
  posts : SubjectState α ε

/-- `constructor() { }` together with the field initializer
`posts = new Subject()`. -/
def SharedService.new : SharedService α ε := ⟨SubjectState.mk0⟩

/-- `setPost(post:any){ this.posts.next(post); }` -/
def SharedService.setPost (svc : SharedService α ε) (p : α) : SharedService α ε :=
  { svc with posts := svc.posts.next p }

/-- `getPost(){ return this.posts; }` -/
def SharedService.getPost (svc : SharedService α ε) : SubjectState α ε :=
  svc.posts

/-- Embedding of `src/src/app/posts/posts.component.ts`: the component state —
`public posts = []`, the console log, and whether `postSubscription`
is currently subscribed. -/
structure PostsComponent (α : Type) : Type where
  posts : List α
  log : List α
  subscribed : Bool
deriving DecidableEq, Repr

/-- Field initializers of `PostsComponent`: `public posts = []`,
nothing subscribed yet. -/
def PostsComponent.new : PostsComponent α := ⟨[], [], false⟩

/-- Lifecycle and notification events reaching a `PostsComponent`. -/
inductive PostsEvent (α : Type) : Type where
  | ngOnInit
  | onPost (v : α)
  | ngOnDestroy
deriving DecidableEq, Repr

/-- One step of `PostsComponent`: `ngOnInit` subscribes; the subscription
callback `(response2) => \x7b console.log(response2) \x7d` only logs the value
(the line `this.posts.push()` is commented out in the source);
`ngOnDestroy` calls `this.postSubscription.unsubscribe()`. -/
def PostsComponent.step (c : PostsComponent α) : PostsEvent α → PostsComponent α
  | .ngOnInit => { c with subscribed := true }
  | .onPost v => if c.subscribed then { c with log := c.log ++ [v] } else c
  | .ngOnDestroy => { c with subscribed := false }

/-- A whole component lifetime: fold the events through `step`. -/
def PostsComponent.run (c : PostsComponent α) (evs : List (PostsEvent α)) :
    PostsComponent α :=
  evs.foldl PostsComponent.step c

end App

namespace RxModel

variable {α ε : Type}

lemma receivedBy_append (i : Nat) (tr tr' : List (Nat × Notif α ε)) :
    receivedBy i (tr ++ tr') = receivedBy i tr ++ receivedBy i tr' := by
  simp [receivedBy, List.filterMap_append]

lemma receivedBy_fanout_not_mem {i : Nat} {l : List Nat} (h : i ∉ l)
    (n : Notif α ε) :
    receivedBy i (l.map (fun j => (j, n))) = [] := by
  induction l with
  | nil => simp [receivedBy]
  | cons a l ih =>
    simp only [List.mem_cons, not_or] at h
    simp only [List.map_cons, receivedBy, List.filterMap_cons]
    rw [if_neg (by exact fun hc => h.1 (hc.symm))]
    exact ih h.2

lemma receivedBy_fanout_mem {i : Nat} {l : List Nat} (hd : l.Nodup)
    (h : i ∈ l) (n : Notif α ε) :
    receivedBy i (l.map (fun j => (j, n))) = [n] := by
  induction l with
  | nil => cases h
  | cons a l ih =>
    rcases List.mem_cons.mp h with rfl | hmem
    · simp only [List.map_cons, receivedBy, List.filterMap_cons, if_pos rfl]
      have hnot : i ∉ l := (List.nodup_cons.mp hd).1
      have h0 := receivedBy_fanout_not_mem (i := i) (l := l) hnot n
      simp only [receivedBy] at h0
      rw [h0]
      simp
    · have hne : a ≠ i := by
        rintro rfl
        exact (List.nodup_cons.mp hd).1 hmem
      simp only [List.map_cons, receivedBy, List.filterMap_cons, if_neg hne]
      exact ih (List.nodup_cons.mp hd).2 hmem

lemma next_of_not_terminal {s : SubjectState α ε} (h : s.terminal = none)
    (v : α) :
    s.next v =
      { s with trace := s.trace ++ s.active.map (fun i => (i, Notif.next v)) } := by
  simp [SubjectState.next, h]

lemma pushAll_trace {s : SubjectState α ε} (vs : List α)
    (h : s.terminal = none) :
    (s.pushAll vs).trace =
        s.trace ++ vs.flatMap (fun v => s.active.map (fun i => (i, Notif.next v)))
      ∧ (s.pushAll vs).active = s.active ∧ (s.pushAll vs).terminal = none := by
  induction vs generalizing s with
  | nil => simp [SubjectState.pushAll, h]
  | cons v vs ih =>
    have hn := next_of_not_terminal h v
    have hstep : s.pushAll (v :: vs) = (s.next v).pushAll vs := rfl
    have ht' : (s.next v).terminal = none := by rw [hn]; exact h
    obtain ⟨h1, h2, h3⟩ := ih (s := s.next v) ht'
    refine ⟨?_, ?_, h3⟩
    · rw [hstep, h1, hn]
      simp [List.append_assoc]
    · rw [hstep, h2, hn]

lemma receivedBy_flatMap_fanout {i : Nat} {l : List Nat} (hd : l.Nodup)
    (h : i ∈ l) (vs : List α) :
    receivedBy i (vs.flatMap (fun v => l.map (fun j => (j, (Notif.next v : Notif α ε)))))
      = vs.map Notif.next := by
  induction vs with
  | nil => simp [receivedBy]
  | cons v vs ih =>
    rw [List.flatMap_cons, receivedBy_append, receivedBy_fanout_mem hd h,
      ih, List.map_cons]
    rfl

end RxModel

namespace RxModel

variable {α ε : Type}

lemma notify_inactive {s : Subscription α ε} (h : s.active = false)
    (n : Notif α ε) : s.notify n = s := by
  simp [Subscription.notify, h]

lemma notifyAll_inactive {s : Subscription α ε} (h : s.active = false)
    (ns : List (Notif α ε)) : s.notifyAll ns = s := by
  induction ns with
  | nil => rfl
  | cons n ns ih =>
    have hstep : s.notifyAll (n :: ns) = (s.notify n).notifyAll ns := rfl
    rw [hstep, notify_inactive h, ih]

/-- C1: for every sequence of values pushed into a non-terminal Subject
(as `SharedService.setPost` does via `Subject.next`), the fan-out appends, for
each pushed value in push order, one `next` notification per active observer
in subscription order; consequently every active observer receives exactly
the pushed values, in exactly the order they were pushed. -/
theorem subject_multicast_same_order (s : SubjectState α ε) (vs : List α)
    (h : s.terminal = none) :
    (s.pushAll vs).trace
        = s.trace ++ vs.flatMap (fun v => s.active.map (fun i => (i, Notif.next v)))
    ∧ ∀ i, s.active.Nodup → i ∈ s.active →
        receivedBy i (s.pushAll vs).trace
          = receivedBy i s.trace ++ vs.map Notif.next := by
  obtain ⟨h1, _, _⟩ := pushAll_trace vs h
  refine ⟨h1, fun i hd hi => ?_⟩
  rw [h1, receivedBy_append, receivedBy_flatMap_fanout hd hi]

/-- Witness for C1 at a concrete Subject with two subscribers and two pushes. -/
theorem subject_multicast_same_order_witness :
    ((SubjectState.mk [0, 1] none [] : SubjectState Nat Unit).pushAll [10, 20]).trace
        = (SubjectState.mk [0, 1] none [] : SubjectState Nat Unit).trace
          ++ [10, 20].flatMap (fun v =>
              (SubjectState.mk [0, 1] none [] : SubjectState Nat Unit).active.map
                (fun i => (i, Notif.next v)))
    ∧ ∀ i, (SubjectState.mk [0, 1] none [] : SubjectState Nat Unit).active.Nodup →
        i ∈ (SubjectState.mk [0, 1] none [] : SubjectState Nat Unit).active →
        receivedBy i
            ((SubjectState.mk [0, 1] none [] : SubjectState Nat Unit).pushAll
              [10, 20]).trace
          = receivedBy i (SubjectState.mk [0, 1] none [] : SubjectState Nat Unit).trace
            ++ [10, 20].map Notif.next :=
  subject_multicast_same_order (SubjectState.mk [0, 1] none []) [10, 20] rfl

/-- C2: cancelling an active Subscription clears the `active` flag, runs the
registered teardown callbacks exactly once, in reverse registration order, at
that transition; cancelling is idempotent and a no-op (never an error) on an
inactive Subscription; and no notification is ever delivered after
cancellation — even a whole queued sequence leaves the state, and in
particular the executed-teardown log, unchanged. -/
theorem subscription_cancel_guarantees (s : Subscription α ε)
    (h : s.active = true) :
    s.cancel.active = false
    ∧ s.cancel.ran = s.ran ++ s.teardowns.reverse
    ∧ s.cancel.cancel = s.cancel
    ∧ (∀ s2 : Subscription α ε, s2.active = false → s2.cancel = s2)
    ∧ (∀ ns, s.cancel.notifyAll ns = s.cancel)
    ∧ (∀ ns, (s.cancel.notifyAll ns).ran = s.ran ++ s.teardowns.reverse) := by
  have hc : s.cancel = ⟨false, [], s.ran ++ s.teardowns.reverse, s.received⟩ := by
    simp [Subscription.cancel, h]
  have hinact : ∀ s2 : Subscription α ε, s2.active = false → s2.cancel = s2 := by
    intro s2 h2
    simp [Subscription.cancel, h2]
  refine ⟨by rw [hc], by rw [hc], ?_, hinact, ?_, ?_⟩
  · rw [hc]
    exact hinact _ rfl
  · intro ns
    exact notifyAll_inactive (by rw [hc]) ns
  · intro ns
    rw [notifyAll_inactive (by rw [hc]) ns, hc]

/-- Witness for C2 at a concrete active Subscription with three teardowns. -/
theorem subscription_cancel_guarantees_witness :
    (Subscription.mk true [1, 2, 3] [] [] : Subscription Nat Unit).cancel.active = false
    ∧ (Subscription.mk true [1, 2, 3] [] [] : Subscription Nat Unit).cancel.ran
        = (Subscription.mk true [1, 2, 3] [] [] : Subscription Nat Unit).ran
          ++ (Subscription.mk true [1, 2, 3] [] [] : Subscription Nat Unit).teardowns.reverse
    ∧ (Subscription.mk true [1, 2, 3] [] [] : Subscription Nat Unit).cancel.cancel
        = (Subscription.mk true [1, 2, 3] [] [] : Subscription Nat Unit).cancel
    ∧ (∀ s2 : Subscription Nat Unit, s2.active = false → s2.cancel = s2)
    ∧ (∀ ns, (Subscription.mk true [1, 2, 3] [] [] : Subscription Nat Unit).cancel.notifyAll ns
        = (Subscription.mk true [1, 2, 3] [] [] : Subscription Nat Unit).cancel)
    ∧ (∀ ns, ((Subscription.mk true [1, 2, 3] [] [] : Subscription Nat Unit).cancel.notifyAll ns).ran
        = (Subscription.mk true [1, 2, 3] [] [] : Subscription Nat Unit).ran
          ++ (Subscription.mk true [1, 2, 3] [] [] : Subscription Nat Unit).teardowns.reverse) :=
  subscription_cancel_guarantees (Subscription.mk true [1, 2, 3] [] []) rfl

end RxModel

namespace App

open RxModel

variable {α ε : Type}

/-- C10: `PostsComponent.posts` is initialized to the empty array, and no
operation of the component — `ngOnInit`, the subscription callback (which
only logs), or `ngOnDestroy` — ever modifies it: over any event sequence the
`posts` field is left exactly as it was, hence empty for the component's
whole lifetime. -/
theorem posts_component_posts_frame (c : PostsComponent α)
    (evs : List (PostsEvent α)) :
    (PostsComponent.new : PostsComponent α).posts = []
    ∧ (c.run evs).posts = c.posts := by
  refine ⟨rfl, ?_⟩
  induction evs generalizing c with
  | nil => rfl
  | cons e evs ih =>
    have hstep : c.run (e :: evs) = (c.step e).run evs := rfl
    rw [hstep, ih]
    cases e with
    | ngOnInit => rfl
    | onPost v =>
      by_cases hc : c.subscribed <;> simp [PostsComponent.step, hc]
    | ngOnDestroy => rfl

end App

namespace RxModel

variable {α ε : Type}

lemma bnext_of_not_terminal {s : BehaviorState α ε} (h : s.terminal = none)
    (v : α) :
    s.next v = Except.ok
      ⟨v, s.active, s.terminal, s.trace ++ s.active.map (fun i => (i, Notif.next v))⟩ := by
  simp [BehaviorState.next, h]

lemma bnextD_of_not_terminal {s : BehaviorState α ε} (h : s.terminal = none)
    (v : α) :
    s.nextD v =
      ⟨v, s.active, s.terminal, s.trace ++ s.active.map (fun i => (i, Notif.next v))⟩ := by
  simp [BehaviorState.nextD, bnext_of_not_terminal h, Except.toOption]

lemma getLast_getD_cons (c v : α) (vs : List α) :
    ((v :: vs).getLast?.getD c) = vs.getLast?.getD v := by
  induction vs generalizing c v with
  | nil => rfl
  | cons v' vs ih =>
    rw [List.getLast?_cons_cons, ih c v', ih v v']

lemma bpushAll_spec (s : BehaviorState α ε) (vs : List α)
    (h : s.terminal = none) :
    (s.pushAll vs).current = vs.getLast?.getD s.current
    ∧ (s.pushAll vs).terminal = none
    ∧ (s.pushAll vs).active = s.active
    ∧ (s.pushAll vs).trace
        = s.trace ++ vs.flatMap (fun v => s.active.map (fun i => (i, Notif.next v))) := by
  induction vs generalizing s with
  | nil => simp [BehaviorState.pushAll, h]
  | cons v vs ih =>
    have hstep : s.pushAll (v :: vs) = (s.nextD v).pushAll vs := rfl
    have hn := bnextD_of_not_terminal h v
    have ht' : (s.nextD v).terminal = none := by rw [hn]; exact h
    obtain ⟨h1, h2, h3, h4⟩ := ih (s := s.nextD v) ht'
    refine ⟨?_, by rw [hstep]; exact h2, ?_, ?_⟩
    · rw [hstep, h1, hn, getLast_getD_cons]
    · rw [hstep, h3, hn]
    · rw [hstep, h4, hn]
      simp [List.append_assoc]

end RxModel

namespace RxModel

variable {α ε : Type}

/-- C3: for every non-terminal BehaviorSubject, `currentValue` is exactly the
most recently pushed value (or the construction-time value if nothing was
pushed), every push updates `currentValue` synchronously, and a fresh
subscriber synchronously receives exactly `currentValue` as its first
notification, before any value pushed after subscription. -/
theorem behavior_subject_replay (s : BehaviorState α ε) (i : Nat)
    (vs ws : List α) (h : s.terminal = none) (hd : s.active.Nodup)
    (hi : i ∉ s.active) (htr : receivedBy i s.trace = []) :
    (s.pushAll vs).current = vs.getLast?.getD s.current
    ∧ (∀ v, s.next v = Except.ok
        ⟨v, s.active, s.terminal, s.trace ++ s.active.map (fun j => (j, Notif.next v))⟩)
    ∧ receivedBy i (s.subscribe i).trace = [Notif.next s.current]
    ∧ receivedBy i ((s.subscribe i).pushAll ws).trace
        = Notif.next s.current :: ws.map Notif.next := by
  have hsub : s.subscribe i
      = ⟨s.current, s.active ++ [i], s.terminal, s.trace ++ [(i, Notif.next s.current)]⟩ := by
    simp [BehaviorState.subscribe, h]
  have hrecsub : receivedBy i (s.subscribe i).trace = [Notif.next s.current] := by
    rw [hsub, receivedBy_append, htr]
    simp [receivedBy]
  refine ⟨(bpushAll_spec s vs h).1, fun v => bnext_of_not_terminal h v, hrecsub, ?_⟩
  have ht2 : (s.subscribe i).terminal = none := by rw [hsub]; exact h
  obtain ⟨_, _, _, h4⟩ := bpushAll_spec (s.subscribe i) ws ht2
  have hact : (s.subscribe i).active = s.active ++ [i] := by rw [hsub]
  have hdup : (s.active ++ [i]).Nodup := by
    rw [List.nodup_append]
    exact ⟨hd, List.nodup_singleton i,
      fun a ha hai => hi ((List.mem_singleton.mp hai) ▸ ha)⟩
  have hmem : i ∈ s.active ++ [i] := by simp
  rw [h4, receivedBy_append, hrecsub, hact, receivedBy_flatMap_fanout hdup hmem]
  rfl

/-- Witness for C3 at the README's BehaviorSubject: initial value 100, one
push of 200, a fresh subscriber 0, then one further push of 300. -/
theorem behavior_subject_replay_witness :
    wBeh.terminal = none ∧ wBeh.active.Nodup ∧ 0 ∉ wBeh.active
    ∧ receivedBy 0 wBeh.trace = []
    ∧ ((wBeh.pushAll [200]).current = [200].getLast?.getD wBeh.current
      ∧ (∀ v, wBeh.next v = Except.ok
          ⟨v, wBeh.active, wBeh.terminal,
            wBeh.trace ++ wBeh.active.map (fun j => (j, Notif.next v))⟩)
      ∧ receivedBy 0 (wBeh.subscribe 0).trace = [Notif.next wBeh.current]
      ∧ receivedBy 0 ((wBeh.subscribe 0).pushAll [300]).trace
          = Notif.next wBeh.current :: [300].map Notif.next) :=
  ⟨rfl, by decide, by decide, rfl,
    behavior_subject_replay wBeh 0 [200] [300] rfl (by decide) (by decide) rfl⟩

/-- C7: on a non-terminal Subject, the terminal transition (`complete` or
`error`) fans out the terminal notification exactly once to the active
observers and clears the active set; afterwards `next` is a silent no-op on
any terminal Subject (no notification, no error to the caller), a repeated
terminal transition changes nothing, and a later subscriber receives only the
cached terminal notification and is never added to the active set. -/
theorem subject_terminal_semantics (s : SubjectState α ε) (v : α) (e : ε)
    (j : Nat) (h : s.terminal = none) :
    (∀ s2 : SubjectState α ε, s2.terminal.isSome = true → s2.next v = s2)
    ∧ s.complete.terminal = some Terminal.completed
    ∧ s.complete.active = []
    ∧ s.complete.trace = s.trace ++ s.active.map (fun i => (i, Notif.complete))
    ∧ s.complete.complete = s.complete
    ∧ (s.error e).terminal = some (Terminal.errored e)
    ∧ (s.error e).active = []
    ∧ (s.error e).trace = s.trace ++ s.active.map (fun i => (i, Notif.error e))
    ∧ (s.complete.subscribe j).active = []
    ∧ receivedBy j (s.complete.subscribe j).trace
        = receivedBy j s.complete.trace ++ [Notif.complete]
    ∧ ((s.error e).subscribe j).active = []
    ∧ receivedBy j ((s.error e).subscribe j).trace
        = receivedBy j (s.error e).trace ++ [Notif.error e] := by
  have hc : s.complete
      = ⟨[], some .completed, s.trace ++ s.active.map (fun i => (i, Notif.complete))⟩ := by
    simp [SubjectState.complete, h]
  have he : s.error e
      = ⟨[], some (.errored e), s.trace ++ s.active.map (fun i => (i, Notif.error e))⟩ := by
    simp [SubjectState.error, h]
  refine ⟨fun s2 h2 => by simp [SubjectState.next, h2], by rw [hc], by rw [hc],
    by rw [hc], by rw [hc]; rfl, by rw [he], by rw [he], by rw [he],
    ?_, ?_, ?_, ?_⟩
  · rw [hc]; rfl
  · rw [hc]
    simp [SubjectState.subscribe, Terminal.notif, receivedBy_append, receivedBy]
  · rw [he]; rfl
  · rw [he]
    simp [SubjectState.subscribe, Terminal.notif, receivedBy_append, receivedBy]

/-- Witness for C7 at a concrete Subject with two observers. -/
theorem subject_terminal_semantics_witness :
    wSubj.terminal = none
    ∧ ((∀ s2 : SubjectState Nat Unit, s2.terminal.isSome = true → s2.next 5 = s2)
      ∧ wSubj.complete.terminal = some Terminal.completed
      ∧ wSubj.complete.active = []
      ∧ wSubj.complete.trace
          = wSubj.trace ++ wSubj.active.map (fun i => (i, Notif.complete))
      ∧ wSubj.complete.complete = wSubj.complete
      ∧ (wSubj.error ()).terminal = some (Terminal.errored ())
      ∧ (wSubj.error ()).active = []
      ∧ (wSubj.error ()).trace
          = wSubj.trace ++ wSubj.active.map (fun i => (i, Notif.error ()))
      ∧ (wSubj.complete.subscribe 7).active = []
      ∧ receivedBy 7 (wSubj.complete.subscribe 7).trace
          = receivedBy 7 wSubj.complete.trace ++ [Notif.complete]
      ∧ ((wSubj.error ()).subscribe 7).active = []
      ∧ receivedBy 7 ((wSubj.error ()).subscribe 7).trace
          = receivedBy 7 (wSubj.error ()).trace ++ [Notif.error ()]) :=
  ⟨rfl, subject_terminal_semantics wSubj 5 () 7 rfl⟩

/-- C8: pushing into a terminated BehaviorSubject is reported to the caller
as an invalid-state condition, not swallowed: `next` returns the
`StateError` rather than delivering anything. -/
theorem behavior_next_terminal_state_error (s : BehaviorState α ε) (v : α)
    (h : s.terminal.isSome = true) :
    s.next v = Except.error StateError.invalidState := by
  simp [BehaviorState.next, h]

/-- Witness for C8 at a concrete completed BehaviorSubject. -/
theorem behavior_next_terminal_state_error_witness :
    wBehDone.terminal.isSome = true
    ∧ wBehDone.next 5 = Except.error StateError.invalidState :=
  ⟨rfl, behavior_next_terminal_state_error wBehDone 5 rfl⟩

end RxModel

namespace App

open RxModel

variable {α ε : Type}

/-- C9: `getPost` always returns the service's single `posts` Subject, and a
value passed to `setPost` is pushed into that same Subject, so every observer
active on the Subject returned by `getPost` receives exactly that value,
unchanged, as its next notification. -/
theorem shared_service_single_channel (svc : SharedService α ε) (p : α)
    (i : Nat) (h : svc.posts.terminal = none) (hd : svc.posts.active.Nodup)
    (hi : i ∈ (svc.getPost).active) :
    (∀ svc2 : SharedService α ε, svc2.getPost = svc2.posts)
    ∧ (svc.setPost p).getPost = svc.posts.next p
    ∧ receivedBy i ((svc.setPost p).getPost).trace
        = receivedBy i (svc.getPost).trace ++ [Notif.next p] := by
  refine ⟨fun _ => rfl, rfl, ?_⟩
  show receivedBy i (svc.posts.next p).trace
      = receivedBy i svc.posts.trace ++ [Notif.next p]
  rw [next_of_not_terminal h]
  show receivedBy i (svc.posts.trace ++ svc.posts.active.map (fun j => (j, Notif.next p)))
      = receivedBy i svc.posts.trace ++ [Notif.next p]
  rw [receivedBy_append, receivedBy_fanout_mem hd hi]

/-- Witness for C9 at a concrete service whose Subject has observers 0, 1. -/
theorem shared_service_single_channel_witness :
    (SharedService.mk wSubj).posts.terminal = none
    ∧ (SharedService.mk wSubj).posts.active.Nodup
    ∧ 1 ∈ ((SharedService.mk wSubj).getPost).active
    ∧ ((∀ svc2 : SharedService Nat Unit, svc2.getPost = svc2.posts)
      ∧ ((SharedService.mk wSubj).setPost 42).getPost
          = (SharedService.mk wSubj).posts.next 42
      ∧ receivedBy 1 (((SharedService.mk wSubj).setPost 42).getPost).trace
          = receivedBy 1 ((SharedService.mk wSubj).getPost).trace
            ++ [Notif.next 42]) :=
  ⟨rfl, by decide, by decide,
    shared_service_single_channel (SharedService.mk wSubj) 42 1 rfl (by decide)
      (by decide)⟩

end App

namespace RxModel

variable {α β ε : Type}

lemma sw_run_no_outer (f : α → List β) (l base : List β)
    (post : List (SwEv α)) (hpost : ∀ ev ∈ post, ev.isOuter = false) :
    ∀ s : SwState β,
      (∃ u w, l = u ++ w ∧ s.out = base ++ u
        ∧ (s.pending = some w ∨ s.pending = none)) →
      ∃ u w, l = u ++ w ∧ (swRun f s post).out = base ++ u := by
  induction post with
  | nil =>
    intro s hs
    obtain ⟨u, w, h1, h2, _⟩ := hs
    exact ⟨u, w, h1, h2⟩
  | cons ev post ih =>
    intro s hs
    obtain ⟨u, w, h1, h2, h3⟩ := hs
    have hstep : swRun f s (ev :: post) = swRun f (swStep f s ev) post := rfl
    rw [hstep]
    have hpost' : ∀ e ∈ post, e.isOuter = false :=
      fun e he => hpost e (List.mem_cons_of_mem _ he)
    cases ev with
    | outer x =>
      exact absurd (hpost (SwEv.outer x) (List.mem_cons_self _ _)) (by simp [SwEv.isOuter])
    | tick =>
      rcases h3 with h3 | h3
      · cases w with
        | nil =>
          refine ih hpost' _ ⟨u, [], h1, ?_, Or.inr ?_⟩
          · show (swStep f s SwEv.tick).out = base ++ u
            simp [swStep, h3, h2]
          · simp [swStep, h3]
        | cons v r =>
          refine ih hpost' _ ⟨u ++ [v], r, ?_, ?_, Or.inl ?_⟩
          · rw [h1]; simp
          · show (swStep f s SwEv.tick).out = base ++ (u ++ [v])
            simp [swStep, h3, h2]
          · simp [swStep, h3]
      · refine ih hpost' _ ⟨u, w, h1, ?_, Or.inr ?_⟩
        · show (swStep f s SwEv.tick).out = base ++ u
          simp [swStep, h3, h2]
        · simp [swStep, h3]
    | upDone =>
      refine ih hpost' _ ⟨u, w, h1, ?_, ?_⟩
      · show (swStep f s SwEv.upDone).out = base ++ u
        simp [swStep, h2]
      · show (swStep f s SwEv.upDone).pending = some w
            ∨ (swStep f s SwEv.upDone).pending = none
        simpa [swStep] using h3

/-- C4: after a new upstream value `y` arrives at a `switchMap(f)` stage, the
previous inner Source is unsubscribed at once, so whatever happens next
(short of a further upstream value) the values forwarded from that point on
are exactly an initial segment of `f y` — none of the previous inner Source's
remaining values ever appear; an inner Source running to completion while the
upstream is still live does not complete the outer stream; and on the spec's
concrete scenario — x then y arriving before inner(x) = [1,2,3] emits, with
inner(y) = [9] — the observed output is [9] and the stream is not completed. -/
theorem switchMap_latest_only (f : α → List β) (s : SwState β) (y : α)
    (post : List (SwEv α)) (hpost : ∀ ev ∈ post, ev.isOuter = false) :
    (∃ u w, f y = u ++ w
      ∧ (swRun f s (SwEv.outer y :: post)).out = s.out ++ u)
    ∧ (∀ s2 : SwState β, s2.upDone = false → s2.pending = some [] →
        (swStep f s2 SwEv.tick).done = false)
    ∧ (swRun swF SwState.init
        [SwEv.outer 0, SwEv.outer 1, SwEv.tick, SwEv.tick, SwEv.tick]).out = [9]
    ∧ (swRun swF SwState.init
        [SwEv.outer 0, SwEv.outer 1, SwEv.tick, SwEv.tick, SwEv.tick]).done = false := by
  refine ⟨?_, ?_, by decide, by decide⟩
  · have hstep : swRun f s (SwEv.outer y :: post)
        = swRun f (swStep f s (SwEv.outer y)) post := rfl
    rw [hstep]
    exact sw_run_no_outer f (f y) s.out post hpost _
      ⟨[], f y, by simp, by simp [swStep], Or.inl (by simp [swStep])⟩
  · intro s2 h2 h3
    simp [swStep, h3, h2]

/-- Witness for C4: one tick after the upstream value y = 1 arrives. -/
theorem switchMap_latest_only_witness :
    (∀ ev ∈ ([SwEv.tick] : List (SwEv Nat)), SwEv.isOuter ev = false)
    ∧ ∃ u w, swF 1 = u ++ w
        ∧ (swRun swF SwState.init [SwEv.outer 1, SwEv.tick]).out
            = SwState.init.out ++ u :=
  ⟨by decide,
    (switchMap_latest_only swF SwState.init 1 [SwEv.tick] (by decide)).1⟩

end RxModel

namespace RxModel

variable {α β ε : Type}

lemma debRun_pending (d : Nat) (tc : Option Nat) :
    ∀ (ps : List (Nat × α)) (t : Nat) (v : α),
      debRun d tc (some (t + d, v)) ps = debSpec d tc ((t, v) :: ps) := by
  intro ps
  induction ps with
  | nil =>
    intro t v
    cases tc <;> simp [debRun, debSpec, nextTimes, flushAt]
  | cons p rest ih =>
    intro t v
    obtain ⟨t', v'⟩ := p
    by_cases hlt : t + d < t'
    · have hle : ¬ t' ≤ t + d := by omega
      simp only [debRun, if_pos hlt]
      rw [ih t' v']
      simp [debSpec, nextTimes, List.filterMap_cons, hle]
    · have hle : t' ≤ t + d := by omega
      simp only [debRun, if_neg hlt]
      rw [ih t' v']
      simp [debSpec, nextTimes, List.filterMap_cons, hle]

/-- C5: the timer-driven `debounceTime(d)` — each new upstream value cancels
and restarts the pending timer — forwards exactly those values after which no
newer value arrives within `d`, each at its own time plus `d`, drops every
superseded value, and flushes the last pending value at upstream completion
if its window is still open; on the spec's concrete timeline a(t=0), b(t=50),
c(t=120) with d=100 (values 0, 1, 2 standing for a, b, c), only c is
forwarded, at t=220. -/
theorem debounce_time_forwarding (d : Nat) (tc : Option Nat)
    (ps : List (Nat × α)) :
    debounceTime d tc ps = debSpec d tc ps
    ∧ debounceTime 100 none [(0, 0), (50, 1), (120, 2)] = [(220, (2 : Nat))] := by
  constructor
  · cases ps with
    | nil => rfl
    | cons p rest =>
      obtain ⟨t, v⟩ := p
      show debRun d tc none ((t, v) :: rest) = _
      rw [show debRun d tc none ((t, v) :: rest)
          = debRun d tc (some (t + d, v)) rest from by simp [debRun]]
      exact debRun_pending d tc rest t v
  · rfl

lemma firstErr_none_of {srcs : List (FJSource β ε)}
    (h : ∀ s ∈ srcs, s.err = none) : firstErr srcs = none := by
  induction srcs with
  | nil => rfl
  | cons s rest ih =>
    have hs := h s (List.mem_cons_self _ _)
    simp only [firstErr, hs]
    exact ih (fun x hx => h x (List.mem_cons_of_mem _ hx))

lemma firstErr_spec {srcs : List (FJSource β ε)} {e : ε}
    (h : firstErr srcs = some e) : ∃ s ∈ srcs, s.err = some e := by
  induction srcs with
  | nil => simp [firstErr] at h
  | cons s rest ih =>
    cases hse : s.err with
    | some e' =>
      simp only [firstErr, hse] at h
      exact ⟨s, List.mem_cons_self _ _, by rw [hse, h]⟩
    | none =>
      simp only [firstErr, hse] at h
      obtain ⟨s1, hs1, he1⟩ := ih h
      exact ⟨s1, List.mem_cons_of_mem _ hs1, he1⟩

lemma firstErr_isSome_of :
    ∀ {srcs : List (FJSource β ε)}, (∃ s ∈ srcs, s.err.isSome = true) →
      (firstErr srcs).isSome = true := by
  intro srcs
  induction srcs with
  | nil =>
    rintro ⟨s0, hm, _⟩
    cases hm
  | cons s rest ih =>
    rintro ⟨s0, hm, hs0⟩
    cases hse : s.err with
    | some e => simp [firstErr, hse]
    | none =>
      simp only [firstErr, hse]
      rcases List.mem_cons.mp hm with rfl | hm2
      · rw [hse] at hs0
        cases hs0
      · exact ih ⟨s0, hm2, hs0⟩

lemma lastVals_forall2 {srcs : List (FJSource β ε)}
    (h : ∀ s ∈ srcs, s.vals ≠ []) :
    List.Forall₂ (fun (s : FJSource β ε) (v : β) => s.vals.getLast? = some v)
      srcs (srcs.filterMap (fun s => s.vals.getLast?)) := by
  induction srcs with
  | nil => simp
  | cons s rest ih =>
    have hs : s.vals ≠ [] := h s (List.mem_cons_self _ _)
    obtain ⟨v, hv⟩ := Option.isSome_iff_exists.mp (by rwa [List.getLast?_isSome])
    simp only [List.filterMap_cons, hv]
    exact List.Forall₂.cons hv (ih (fun x hx => h x (List.mem_cons_of_mem _ hx)))

/-- C6: when every input Source completes after emitting at least one value,
`forkJoin` emits exactly one notification — the array pairing each input
Source, in order, with its last emitted value — and in particular
`forkJoin [A, B]` with A emitting 1, 2 and B emitting 9 yields [2, 9]; and
whenever any input Source errors, no array is ever emitted and an error of
one of the inputs is propagated instead. -/
theorem forkJoin_last_values (srcs : List (FJSource β ε))
    (h : ∀ s ∈ srcs, s.err = none ∧ s.vals ≠ []) :
    forkJoin srcs = FJResult.emits (srcs.filterMap (fun s => s.vals.getLast?))
    ∧ List.Forall₂ (fun (s : FJSource β ε) (v : β) => s.vals.getLast? = some v)
        srcs (srcs.filterMap (fun s => s.vals.getLast?))
    ∧ forkJoin [FJSource.mk [1, 2] none, FJSource.mk [9] none]
        = (FJResult.emits [2, 9] : FJResult Nat Unit)
    ∧ (∀ (srcs2 : List (FJSource β ε)) (s0 : FJSource β ε) (e0 : ε),
        s0 ∈ srcs2 → s0.err = some e0 →
        (∀ arr, forkJoin srcs2 ≠ FJResult.emits arr)
        ∧ ∃ e, forkJoin srcs2 = FJResult.errored e ∧ ∃ s1 ∈ srcs2, s1.err = some e)
    ∧ forkJoin [FJSource.mk [1, 2] none, FJSource.mk [9] (some ())]
        = (FJResult.errored () : FJResult Nat Unit) := by
  have hfe : firstErr srcs = none := firstErr_none_of (fun s hs => (h s hs).1)
  have hne : srcs.any (fun s => s.vals.isEmpty) = false := by
    rw [List.any_eq_false]
    intro s hs
    simp only [List.isEmpty_iff]
    exact (h s hs).2
  refine ⟨by simp [forkJoin, hfe, hne],
    lastVals_forall2 (fun s hs => (h s hs).2), by rfl, ?_, by rfl⟩
  intro srcs2 s0 e0 hm he0
  have hsome : (firstErr srcs2).isSome = true :=
    firstErr_isSome_of ⟨s0, hm, by rw [he0]; rfl⟩
  obtain ⟨e, he⟩ := Option.isSome_iff_exists.mp hsome
  have hfj : forkJoin srcs2 = FJResult.errored e := by simp [forkJoin, he]
  refine ⟨fun arr harr => ?_, e, hfj, firstErr_spec he⟩
  rw [hfj] at harr
  cases harr

/-- Witness for C6 at the spec's concrete pair of Sources. -/
theorem forkJoin_last_values_witness :
    (∀ s ∈ ([FJSource.mk [1, 2] none, FJSource.mk [9] none] :
        List (FJSource Nat Unit)), s.err = none ∧ s.vals ≠ [])
    ∧ forkJoin ([FJSource.mk [1, 2] none, FJSource.mk [9] none] :
          List (FJSource Nat Unit))
        = FJResult.emits
            (([FJSource.mk [1, 2] none, FJSource.mk [9] none] :
              List (FJSource Nat Unit)).filterMap (fun s => s.vals.getLast?)) :=
  ⟨by decide,
    (forkJoin_last_values
      ([FJSource.mk [1, 2] none, FJSource.mk [9] none] : List (FJSource Nat Unit))
      (by decide)).1⟩

end RxModel
